import Mathlib

/-!
# RetroNova API — verification of the lifecycle / friendship / promo-code core

Shallow embedding of the service layer of the RetroNova backend
(`app/services/friends.py`, `app/services/promoCode.py`,
`app/services/user.py`, `app/utils/db_utils.py`).

Modelling conventions:
* The entity store is a `List` of records per table; `Query.first()` becomes
  `List.find?` over that list, and a commit of a mutated ORM row becomes a
  `List.map` that rewrites the row with the matching primary key.
* UUID primary keys are abstracted to `Nat`; `datetime` values to `Nat`
  instants (`Option Nat` for nullable columns).  The current clock
  (`datetime.utcnow()`) is an explicit `now` argument.
* Raising `HTTPException(status_code, detail)` is modelled by returning
  `Except.error e` where `e : ApiError` names the raise site; an error return
  means the transaction is aborted, so no state is produced alongside it.
* `updated_at` is maintained by an ORM `onupdate` hook, not by the service
  code under study; it is omitted from the record types.
-/

/-- One constructor per `raise HTTPException(...)` site relevant to the
friendship, promo-code and user services.  `status` recovers the HTTP
status code attached at the raise site. -/
inductive ApiError where
  | friendNotFound
  | friendshipAlreadyExists
  | reverseFriendshipDeleted
  | reverseFriendshipActive
  | friendshipNotDeleted
  | promoNotFound
  | promoInactive
  | promoExpired
  | promoQuotaExceeded
  | promoNotDeleted
  | userNotFound
  deriving Repr, DecidableEq

/-- HTTP status code of each raise site, as written in the source. -/
def ApiError.status : ApiError → Nat
  | .friendNotFound => 404
  | .friendshipAlreadyExists => 400
  | .reverseFriendshipDeleted => 400
  | .reverseFriendshipActive => 400
  | .friendshipNotDeleted => 400
  | .promoNotFound => 404
  | .promoInactive => 400
  | .promoExpired => 400
  | .promoQuotaExceeded => 400
  | .promoNotDeleted => 400
  | .userNotFound => 404

/-- A row of the `friends` table (`app/models.py`, class `Friends`),
including the `BaseModel` lifecycle columns. -/
structure FriendRec where
  id : Nat
  friend_from_id : Nat
  friend_to_id : Nat
  accept : Bool
  decline : Bool
  delete : Bool
  created_at : Nat
  is_deleted : Bool
  deleted_at : Option Nat
  deriving Repr, DecidableEq

/-- Pydantic schema `FriendsCreate` (`app/schemas.py`): the request body of
the create endpoint.  The three flags default to `false`. -/
structure FriendsCreate where
  friend_from_id : Nat
  friend_to_id : Nat
  accept : Bool := false
  decline : Bool := false
  delete : Bool := false
  deriving Repr, DecidableEq

/-- Pydantic schema `FriendsUpdate`: a partial patch; `none` models a field
absent from the request (`exclude_unset=True`). -/
structure FriendsUpdate where
  accept : Option Bool := none
  decline : Option Bool := none
  delete : Option Bool := none
  deriving Repr, DecidableEq

/-- `app/utils/db_utils.py`, `filter_deleted` with `include_deleted=False`:
keep a row when its `is_deleted` flag is not set.  (The SQL also tolerates
`is_deleted IS NULL`; the column is modelled as `Bool`, so `NULL` does not
arise.) -/
def keepActive (isDeleted : Bool) : Bool := !isDeleted

/-- `app/services/friends.py`, `create_friend_service`.  `newId` stands for
the fresh `uuid4` primary key of a newly inserted row and `now` for the
creation timestamp. -/
def create_friend_service (db : List FriendRec) (data : FriendsCreate)
    (newId now : Nat) : Except ApiError (FriendRec × List FriendRec) :=
  match db.find? (fun r =>
      r.friend_from_id == data.friend_from_id &&
      r.friend_to_id == data.friend_to_id) with
  | some existing =>
    if existing.is_deleted then
      .ok ({ existing with is_deleted := false, deleted_at := none },
        db.map (fun r =>
          if r.id == existing.id then
            { r with is_deleted := false, deleted_at := none }
          else r))
    else
      .error .friendshipAlreadyExists
  | none =>
    match db.find? (fun r =>
        r.friend_from_id == data.friend_to_id &&
        r.friend_to_id == data.friend_from_id) with
    | some reverse =>
      if reverse.is_deleted then .error .reverseFriendshipDeleted
      else .error .reverseFriendshipActive
    | none =>
      let nf : FriendRec :=
        { id := newId
          friend_from_id := data.friend_from_id
          friend_to_id := data.friend_to_id
          accept := data.accept
          decline := data.decline
          delete := data.delete
          created_at := now
          is_deleted := false
          deleted_at := none }
      .ok (nf, db ++ [nf])

/-- Field-by-field application of a `FriendsUpdate` patch
(`for key, value in update_data.dict(exclude_unset=True).items()`). -/
def applyFriendsUpdate (patch : FriendsUpdate) (r : FriendRec) : FriendRec :=
  { r with
    accept := patch.accept.getD r.accept
    decline := patch.decline.getD r.decline
    delete := patch.delete.getD r.delete }

/-- `app/services/friends.py`, `update_friend_service`. -/
def update_friend_service (db : List FriendRec) (friend_id : Nat)
    (patch : FriendsUpdate) : Except ApiError (FriendRec × List FriendRec) :=
  match db.find? (fun r => keepActive r.is_deleted && r.id == friend_id) with
  | none => .error .friendNotFound
  | some friend =>
    .ok (applyFriendsUpdate patch friend,
      db.map (fun r =>
        if r.id == friend_id then applyFriendsUpdate patch r else r))

/-- `app/utils/db_utils.py`, `soft_delete`, specialised to a friendship row:
sets `is_deleted` and stamps `deleted_at` with the current time. -/
def soft_delete_friend (r : FriendRec) (now : Nat) : FriendRec :=
  { r with is_deleted := true, deleted_at := some now }

/-- `app/services/friends.py`, `delete_friend_service`.  The lookup uses the
default non-deleted scope (`filter_deleted(query, False)`); `hard` selects
`db.delete` (row removal) over `soft_delete`. -/
def delete_friend_service (db : List FriendRec) (friend_id : Nat)
    (hard : Bool) (now : Nat) : Except ApiError (FriendRec × List FriendRec) :=
  match db.find? (fun r => keepActive r.is_deleted && r.id == friend_id) with
  | none => .error .friendNotFound
  | some friend =>
    if hard then
      .ok (friend, db.filter (fun r => !(r.id == friend_id)))
    else
      .ok (soft_delete_friend friend now,
        db.map (fun r =>
          if r.id == friend_id then soft_delete_friend r now else r))

/-- `app/services/friends.py`, `restore_friend_service`.  The lookup does
not exclude soft-deleted rows; restoring clears `is_deleted` and
`deleted_at`. -/
def restore_friend_service (db : List FriendRec) (friend_id : Nat) :
    Except ApiError (FriendRec × List FriendRec) :=
  match db.find? (fun r => r.id == friend_id) with
  | none => .error .friendNotFound
  | some friend =>
    if friend.is_deleted then
      .ok ({ friend with is_deleted := false, deleted_at := none },
        db.map (fun r =>
          if r.id == friend_id then
            { r with is_deleted := false, deleted_at := none }
          else r))
    else
      .error .friendshipNotDeleted

/-- A row of the `promo_codes` table (`app/models.py`, class `PromoCodes`)
with the `BaseModel` lifecycle columns.  `nb_parties` is an `Int` like the
Python integer column; `used_count` and `max_uses` are the non-negative
usage counters. -/
structure PromoRec where
  id : Nat
  code : String
  nb_parties : Int
  is_active : Bool
  expires_at : Option Nat
  used_count : Nat
  max_uses : Option Nat
  created_at : Nat
  is_deleted : Bool
  deleted_at : Option Nat
  deriving Repr, DecidableEq

/-- A row of the `users` table (`app/models.py`, class `Users`) with the
`BaseModel` lifecycle columns (relationship columns omitted). -/
structure UserRec where
  id : Nat
  publique_id : String
  firebase_id : String
  nb_ticket : Int
  bar : Bool
  created_at : Nat
  is_deleted : Bool
  deleted_at : Option Nat
  deriving Repr, DecidableEq

/-- The slice of the entity store touched by promo-code redemption. -/
structure PromoState where
  promos : List PromoRec
  users : List UserRec
  deriving Repr, DecidableEq

/-- Python's `str.upper()` as used in `code.upper()`: uppercase the string
character by character.  (Promo codes are validated to be alphanumeric by
the schema, for which per-character uppercasing coincides with Python's.) -/
def pyUpper (s : String) : String := ⟨s.data.map Char.toUpper⟩

/-- Python truthiness of `promo_code.expires_at and promo_code.expires_at <
datetime.utcnow()` (`use_promo_code_service`): an absent `expires_at` is
falsy, a present one is compared with the clock. -/
def promoExpired (p : PromoRec) (now : Nat) : Bool :=
  match p.expires_at with
  | none => false
  | some t => t < now

/-- Python truthiness of `promo_code.max_uses and promo_code.used_count >=
promo_code.max_uses`: an absent `max_uses` is falsy, and so is `max_uses ==
0` (integer `0` is falsy in Python), otherwise the counters are compared. -/
def promoQuotaReached (p : PromoRec) : Bool :=
  match p.max_uses with
  | none => false
  | some m => m != 0 && m ≤ p.used_count

/-- Validation/read phase of `use_promo_code_service`
(`app/services/promoCode.py`, lines 241-267): look up the non-deleted promo
row by the upper-cased code, check activity, expiry and quota, then look up
the non-deleted user.  Returns the two row snapshots the session read. -/
def redeemLookup (s : PromoState) (code : String) (user_id now : Nat) :
    Except ApiError (PromoRec × UserRec) :=
  match s.promos.find? (fun p =>
      keepActive p.is_deleted && p.code == pyUpper code) with
  | none => .error .promoNotFound
  | some promo =>
    if !promo.is_active then .error .promoInactive
    else if promoExpired promo now then .error .promoExpired
    else if promoQuotaReached promo then .error .promoQuotaExceeded
    else
      match s.users.find? (fun u =>
          keepActive u.is_deleted && u.id == user_id) with
      | none => .error .userNotFound
      | some user => .ok (promo, user)

/-- Write/commit phase of `use_promo_code_service` (lines 269-276): the
session holds the snapshots `promo` and `user`, mutates
`user.nb_ticket += promo.nb_parties` and `promo.used_count += 1` on those
snapshots, and the commit writes the mutated values back to the rows with
the matching primary keys. -/
def redeemApply (s : PromoState) (promo : PromoRec) (user : UserRec) :
    PromoState :=
  { promos := s.promos.map (fun p =>
      if p.id == promo.id then { p with used_count := promo.used_count + 1 }
      else p)
    users := s.users.map (fun u =>
      if u.id == user.id then { u with nb_ticket := user.nb_ticket + promo.nb_parties }
      else u) }

/-- `app/services/promoCode.py`, `use_promo_code_service`: one sequential
call is the validation/read phase immediately followed by the write phase.
On success the route answers with `nb_parties`. -/
def use_promo_code_service (s : PromoState) (code : String)
    (user_id now : Nat) : Except ApiError (Int × PromoState) :=
  match redeemLookup s code user_id now with
  | .error e => .error e
  | .ok (promo, user) => .ok (promo.nb_parties, redeemApply s promo user)

/-- `app/services/promoCode.py`, `delete_promo_code_service`: non-deleted
scope lookup, then hard removal or `soft_delete`.  (The source returns a
confirmation message; the row at deletion time is returned here in its
place.) -/
def delete_promo_code_service (db : List PromoRec) (promo_code_id : Nat)
    (hard : Bool) (now : Nat) : Except ApiError (PromoRec × List PromoRec) :=
  match db.find? (fun p => keepActive p.is_deleted && p.id == promo_code_id) with
  | none => .error .promoNotFound
  | some promo =>
    if hard then
      .ok (promo, db.filter (fun p => !(p.id == promo_code_id)))
    else
      .ok ({ promo with is_deleted := true, deleted_at := some now },
        db.map (fun p =>
          if p.id == promo_code_id then
            { p with is_deleted := true, deleted_at := some now }
          else p))

/-- `app/services/promoCode.py`, `restore_promo_code_service`. -/
def restore_promo_code_service (db : List PromoRec) (promo_code_id : Nat) :
    Except ApiError (PromoRec × List PromoRec) :=
  match db.find? (fun p => p.id == promo_code_id) with
  | none => .error .promoNotFound
  | some promo =>
    if promo.is_deleted then
      .ok ({ promo with is_deleted := false, deleted_at := none },
        db.map (fun p =>
          if p.id == promo_code_id then
            { p with is_deleted := false, deleted_at := none }
          else p))
    else
      .error .promoNotDeleted

/-- `app/services/user.py`, `delete_user_service`: non-deleted scope lookup,
then hard removal or `soft_delete`. -/
def delete_user_service (db : List UserRec) (user_id : Nat)
    (hard : Bool) (now : Nat) : Except ApiError (UserRec × List UserRec) :=
  match db.find? (fun u => keepActive u.is_deleted && u.id == user_id) with
  | none => .error .userNotFound
  | some user =>
    if hard then
      .ok (user, db.filter (fun u => !(u.id == user_id)))
    else
      .ok ({ user with is_deleted := true, deleted_at := some now },
        db.map (fun u =>
          if u.id == user_id then
            { u with is_deleted := true, deleted_at := some now }
          else u))

/-! ## Friendship invariants -/

/-- Two friendship rows concern the same unordered user pair (same or
opposite direction). -/
def samePair (r s : FriendRec) : Prop :=
  (r.friend_from_id = s.friend_from_id ∧ r.friend_to_id = s.friend_to_id) ∨
  (r.friend_from_id = s.friend_to_id ∧ r.friend_to_id = s.friend_from_id)

instance (r s : FriendRec) : Decidable (samePair r s) := by
  unfold samePair; infer_instance

/-- Row-level uniqueness of the friends table: primary keys identify rows,
and each unordered user pair carries at most one row, in whichever
direction and whatever its deletion state.  This is what
`create_friend_service` maintains by also inspecting soft-deleted rows in
both directions. -/
def EdgeInv (db : List FriendRec) : Prop :=
  (∀ r ∈ db, ∀ s ∈ db, r.id = s.id → r = s) ∧
  (∀ r ∈ db, ∀ s ∈ db, samePair r s → r = s)

instance (db : List FriendRec) : Decidable (EdgeInv db) := by
  unfold EdgeInv; infer_instance

/-- The invariant exactly as the specification words it: for any pair of
users, `(A,B)` and `(B,A)` are never simultaneously active — two active
rows that are mutually reverse must be one and the same row. -/
def ActivePairExclusive (db : List FriendRec) : Prop :=
  ∀ r ∈ db, ∀ s ∈ db, r.is_deleted = false → s.is_deleted = false →
    r.friend_from_id = s.friend_to_id → r.friend_to_id = s.friend_from_id →
    r = s

instance (db : List FriendRec) : Decidable (ActivePairExclusive db) := by
  unfold ActivePairExclusive; infer_instance

theorem activePairExclusive_of_edgeInv {db : List FriendRec}
    (h : EdgeInv db) : ActivePairExclusive db :=
  fun r hr s hs _ _ h1 h2 => h.2 r hr s hs (Or.inr ⟨h1, h2⟩)

/-! ## Generic store lemmas -/

/-- `find?` returns the one element that matches when the match is unique. -/
theorem find?_eq_some_of_unique {α : Type} {p : α → Bool} {l : List α} {r : α}
    (hr : r ∈ l) (hpr : p r = true) (huniq : ∀ s ∈ l, p s = true → s = r) :
    l.find? p = some r := by
  induction l with
  | nil => cases hr
  | cons a t ih =>
    by_cases ha : p a = true
    · rw [List.find?_cons_of_pos t ha]
      exact congrArg some (huniq a (List.mem_cons_self a t) ha).symm ▸ rfl
    · rw [List.find?_cons_of_neg t ha]
      rcases List.mem_cons.mp hr with hra | hrt
      · exact absurd (hra ▸ hpr) ha
      · exact ih hrt (fun s hs hps => huniq s (List.mem_cons_of_mem a hs) hps)

/-- `EdgeInv` survives rewriting rows through any function that does not
touch the primary key or the two endpoint columns. -/
theorem edgeInv_map {db : List FriendRec} (f : FriendRec → FriendRec)
    (hid : ∀ r, (f r).id = r.id)
    (hfrom : ∀ r, (f r).friend_from_id = r.friend_from_id)
    (hto : ∀ r, (f r).friend_to_id = r.friend_to_id)
    (h : EdgeInv db) : EdgeInv (db.map f) := by
  constructor
  · intro r' hr' s' hs' hids
    obtain ⟨a, ha, rfl⟩ := List.mem_map.mp hr'
    obtain ⟨b, hb, rfl⟩ := List.mem_map.mp hs'
    rw [hid a, hid b] at hids
    rw [h.1 a ha b hb hids]
  · intro r' hr' s' hs' hsp
    obtain ⟨a, ha, rfl⟩ := List.mem_map.mp hr'
    obtain ⟨b, hb, rfl⟩ := List.mem_map.mp hs'
    unfold samePair at hsp
    rw [hfrom a, hfrom b, hto a, hto b] at hsp
    rw [h.2 a ha b hb hsp]

/-- `EdgeInv` survives dropping rows. -/
theorem edgeInv_filter {db : List FriendRec} (q : FriendRec → Bool)
    (h : EdgeInv db) : EdgeInv (db.filter q) := by
  constructor
  · intro r hr s hs hids
    exact h.1 r (List.mem_filter.mp hr).1 s (List.mem_filter.mp hs).1 hids
  · intro r hr s hs hsp
    exact h.2 r (List.mem_filter.mp hr).1 s (List.mem_filter.mp hs).1 hsp

/-- A successful create preserves row-level uniqueness, provided the fresh
primary key is really fresh. -/
theorem create_preserves_edgeInv {db : List FriendRec} {data : FriendsCreate}
    {newId now : Nat} {res : FriendRec} {db' : List FriendRec}
    (hinv : EdgeInv db) (hfresh : ∀ r ∈ db, r.id ≠ newId)
    (h : create_friend_service db data newId now = .ok (res, db')) :
    EdgeInv db' := by
  unfold create_friend_service at h
  split at h
  case h_1 existing heq =>
    split at h
    · obtain ⟨-, rfl⟩ : res = _ ∧ _ = db' := by
        injection h with h'; injection h' with h1 h2; exact ⟨h1.symm, h2⟩
      exact edgeInv_map _ (fun r => by split <;> rfl)
        (fun r => by split <;> rfl)
        (fun r => by split <;> rfl) hinv
    · exact absurd h (by simp)
  case h_2 heq =>
    split at h
    case h_1 reverse hrev =>
      split at h <;> exact absurd h (by simp)
    case h_2 hrev =>
      obtain ⟨-, rfl⟩ : res = _ ∧ _ = db' := by
        injection h with h'; injection h' with h1 h2; exact ⟨h1.symm, h2⟩
      have hsame := List.find?_eq_none.mp heq
      have hrevn := List.find?_eq_none.mp hrev
      constructor
      · intro r hr s hs hids
        rcases List.mem_append.mp hr with hr | hr <;>
          rcases List.mem_append.mp hs with hs | hs
        · exact hinv.1 r hr s hs hids
        · rw [List.mem_singleton.mp hs] at hids ⊢
          exact absurd hids (hfresh r hr)
        · rw [List.mem_singleton.mp hr] at hids ⊢
          exact absurd hids.symm (hfresh s hs)
        · rw [List.mem_singleton.mp hr, List.mem_singleton.mp hs]
      · intro r hr s hs hsp
        rcases List.mem_append.mp hr with hr | hr <;>
          rcases List.mem_append.mp hs with hs | hs
        · exact hinv.2 r hr s hs hsp
        · rw [List.mem_singleton.mp hs] at hsp ⊢
          rcases hsp with ⟨h1, h2⟩ | ⟨h1, h2⟩
          · exact absurd (by simp [h1, h2]) (hsame r hr)
          · exact absurd (by simp [h1, h2]) (hrevn r hr)
        · rw [List.mem_singleton.mp hr] at hsp ⊢
          rcases hsp with ⟨h1, h2⟩ | ⟨h1, h2⟩
          · exact absurd (by simp [h1.symm, h2.symm]) (hsame s hs)
          · exact absurd (by simp [h1.symm, h2.symm]) (hrevn s hs)
        · rw [List.mem_singleton.mp hr, List.mem_singleton.mp hs]

/-- A successful update preserves row-level uniqueness: the patch touches
only the status flags. -/
theorem update_preserves_edgeInv {db : List FriendRec} {friend_id : Nat}
    {patch : FriendsUpdate} {res : FriendRec} {db' : List FriendRec}
    (hinv : EdgeInv db)
    (h : update_friend_service db friend_id patch = .ok (res, db')) :
    EdgeInv db' := by
  unfold update_friend_service at h
  split at h
  · exact absurd h (by simp)
  · obtain ⟨-, rfl⟩ : res = _ ∧ _ = db' := by
      injection h with h'; injection h' with h1 h2; exact ⟨h1.symm, h2⟩
    exact edgeInv_map _
      (fun r => by split <;> rfl)
      (fun r => by split <;> rfl)
      (fun r => by split <;> rfl) hinv

/-- A successful delete (hard or soft) preserves row-level uniqueness. -/
theorem delete_preserves_edgeInv {db : List FriendRec} {friend_id now : Nat}
    {hard : Bool} {res : FriendRec} {db' : List FriendRec}
    (hinv : EdgeInv db)
    (h : delete_friend_service db friend_id hard now = .ok (res, db')) :
    EdgeInv db' := by
  unfold delete_friend_service at h
  split at h
  · exact absurd h (by simp)
  · split at h
    · obtain ⟨-, rfl⟩ : res = _ ∧ _ = db' := by
        injection h with h'; injection h' with h1 h2; exact ⟨h1.symm, h2⟩
      exact edgeInv_filter _ hinv
    · obtain ⟨-, rfl⟩ : res = _ ∧ _ = db' := by
        injection h with h'; injection h' with h1 h2; exact ⟨h1.symm, h2⟩
      exact edgeInv_map _
        (fun r => by split <;> rfl)
        (fun r => by split <;> rfl)
        (fun r => by split <;> rfl) hinv

/-- A successful restore preserves row-level uniqueness. -/
theorem restore_preserves_edgeInv {db : List FriendRec} {friend_id : Nat}
    {res : FriendRec} {db' : List FriendRec}
    (hinv : EdgeInv db)
    (h : restore_friend_service db friend_id = .ok (res, db')) :
    EdgeInv db' := by
  unfold restore_friend_service at h
  split at h
  · exact absurd h (by simp)
  · split at h
    · obtain ⟨-, rfl⟩ : res = _ ∧ _ = db' := by
        injection h with h'; injection h' with h1 h2; exact ⟨h1.symm, h2⟩
      exact edgeInv_map _
        (fun r => by split <;> rfl)
        (fun r => by split <;> rfl)
        (fun r => by split <;> rfl) hinv
    · exact absurd h (by simp)

/-! ## C1 — the pair-exclusivity invariant under the four operations -/

/-- A soft-deleted edge from user 1 to user 2. -/
def edgeOneTwoDeleted : FriendRec :=
  { id := 0, friend_from_id := 1, friend_to_id := 2, accept := false,
    decline := false, delete := false, created_at := 0,
    is_deleted := true, deleted_at := some 3 }

/-- An active edge from user 2 back to user 1. -/
def edgeTwoOneActive : FriendRec :=
  { id := 1, friend_from_id := 2, friend_to_id := 1, accept := false,
    decline := false, delete := false, created_at := 4,
    is_deleted := false, deleted_at := none }

/-- A store holding the soft-deleted `(1,2)` edge next to the active
`(2,1)` edge: only one direction is active, so the spec's invariant
holds. -/
def mixedPairDb : List FriendRec := [edgeOneTwoDeleted, edgeTwoOneActive]

/-- The same store after `RestoreFriendship` on edge 0. -/
def mixedPairDbRestored : List FriendRec :=
  [{ edgeOneTwoDeleted with is_deleted := false, deleted_at := none },
   edgeTwoOneActive]

/-- C1, counterexample: `restore_friend_service` does not re-check the
reverse direction, so restoring the soft-deleted `(1,2)` edge while the
`(2,1)` edge is active succeeds and leaves both directions active at once —
the operation does not preserve the invariant as claimed. -/
theorem restore_breaks_active_pair_exclusivity :
    ActivePairExclusive mixedPairDb ∧
    restore_friend_service mixedPairDb 0 =
      .ok ({ edgeOneTwoDeleted with is_deleted := false, deleted_at := none },
        mixedPairDbRestored) ∧
    ¬ ActivePairExclusive mixedPairDbRestored := by
  refine ⟨by decide, rfl, by decide⟩

/-- C1, amended: all four friendship operations preserve the stronger
row-level invariant `EdgeInv` (at most one row per unordered pair, whatever
its deletion state, plus primary-key uniqueness), and `EdgeInv` implies the
spec's active-pair exclusivity.  The literal claim — that each operation
preserves active-pair exclusivity itself — fails for restore, which accepts
states where a reverse row was merely soft-deleted (see the
counterexample). -/
theorem friend_ops_preserve_pair_uniqueness
    (db : List FriendRec) (data : FriendsCreate) (newId now fid : Nat)
    (patch : FriendsUpdate) (hard : Bool)
    (hinv : EdgeInv db) (hfresh : ∀ r ∈ db, r.id ≠ newId) :
    ActivePairExclusive db ∧
    (∀ res db', create_friend_service db data newId now = .ok (res, db') →
      EdgeInv db' ∧ ActivePairExclusive db') ∧
    (∀ res db', update_friend_service db fid patch = .ok (res, db') →
      EdgeInv db' ∧ ActivePairExclusive db') ∧
    (∀ res db', delete_friend_service db fid hard now = .ok (res, db') →
      EdgeInv db' ∧ ActivePairExclusive db') ∧
    (∀ res db', restore_friend_service db fid = .ok (res, db') →
      EdgeInv db' ∧ ActivePairExclusive db') := by
  refine ⟨activePairExclusive_of_edgeInv hinv, ?_, ?_, ?_, ?_⟩ <;>
    intro res db' h
  · have h' := create_preserves_edgeInv hinv hfresh h
    exact ⟨h', activePairExclusive_of_edgeInv h'⟩
  · have h' := update_preserves_edgeInv hinv h
    exact ⟨h', activePairExclusive_of_edgeInv h'⟩
  · have h' := delete_preserves_edgeInv hinv h
    exact ⟨h', activePairExclusive_of_edgeInv h'⟩
  · have h' := restore_preserves_edgeInv hinv h
    exact ⟨h', activePairExclusive_of_edgeInv h'⟩

/-- C1, witness: the amended theorem applied to a one-row store. -/
theorem friend_ops_preserve_pair_uniqueness_witness :
    ActivePairExclusive [edgeTwoOneActive] :=
  (friend_ops_preserve_pair_uniqueness [edgeTwoOneActive]
    ⟨3, 4, false, false, false⟩ 5 6 0 {} false (by decide) (by decide)).1

/-! ## C2 — case analysis of CreateFriendship -/

/-- **C2.**  `create_friend_service` on the request body
`{friend_from_id := a, friend_to_id := b}` (the status flags take their
schema defaults `false`) behaves by cases, in a store satisfying the
row-uniqueness invariant:
1. a same-direction active row exists → `friendshipAlreadyExists` (HTTP 400);
2. a same-direction soft-deleted row exists → that very row is restored
   (same primary key, `is_deleted` cleared, `deleted_at` nulled) and no row
   is added;
3. otherwise a reverse-direction row, soft-deleted or active, exists →
   the reverse-duplicate conflict (HTTP 400 in both sub-cases);
4. otherwise a fresh row is appended in pending status
   (`accept = false`, `decline = false`). -/
theorem create_friend_case_analysis
    (db : List FriendRec) (a b newId now : Nat) (hinv : EdgeInv db) :
    (∀ e ∈ db, e.friend_from_id = a → e.friend_to_id = b →
      e.is_deleted = false →
      create_friend_service db ⟨a, b, false, false, false⟩ newId now =
        .error .friendshipAlreadyExists) ∧
    (∀ e ∈ db, e.friend_from_id = a → e.friend_to_id = b →
      e.is_deleted = true →
      create_friend_service db ⟨a, b, false, false, false⟩ newId now =
        .ok ({ e with is_deleted := false, deleted_at := none },
          db.map (fun r =>
            if r.id == e.id then { r with is_deleted := false, deleted_at := none }
            else r))) ∧
    ((∀ e ∈ db, ¬(e.friend_from_id = a ∧ e.friend_to_id = b)) →
      ∀ v ∈ db, v.friend_from_id = b → v.friend_to_id = a →
      v.is_deleted = true →
      create_friend_service db ⟨a, b, false, false, false⟩ newId now =
        .error .reverseFriendshipDeleted) ∧
    ((∀ e ∈ db, ¬(e.friend_from_id = a ∧ e.friend_to_id = b)) →
      ∀ v ∈ db, v.friend_from_id = b → v.friend_to_id = a →
      v.is_deleted = false →
      create_friend_service db ⟨a, b, false, false, false⟩ newId now =
        .error .reverseFriendshipActive) ∧
    ((∀ e ∈ db, ¬(e.friend_from_id = a ∧ e.friend_to_id = b)) →
      (∀ e ∈ db, ¬(e.friend_from_id = b ∧ e.friend_to_id = a)) →
      create_friend_service db ⟨a, b, false, false, false⟩ newId now =
        .ok ({ id := newId, friend_from_id := a, friend_to_id := b,
               accept := false, decline := false, delete := false,
               created_at := now, is_deleted := false, deleted_at := none },
          db ++ [{ id := newId, friend_from_id := a, friend_to_id := b,
                   accept := false, decline := false, delete := false,
                   created_at := now, is_deleted := false,
                   deleted_at := none }])) := by
  have hsameOf : ∀ e ∈ db, e.friend_from_id = a → e.friend_to_id = b →
      db.find? (fun r => r.friend_from_id == a && r.friend_to_id == b) = some e := by
    intro e he hfa hfb
    apply find?_eq_some_of_unique he
    · simp [hfa, hfb]
    · intro s hs hps
      simp only [Bool.and_eq_true, beq_iff_eq] at hps
      exact hinv.2 s hs e he (Or.inl ⟨hps.1.trans hfa.symm, hps.2.trans hfb.symm⟩)
  have hnoneOf : ∀ (x y : Nat), (∀ e ∈ db, ¬(e.friend_from_id = x ∧ e.friend_to_id = y)) →
      db.find? (fun r => r.friend_from_id == x && r.friend_to_id == y) = none := by
    intro x y hn
    apply List.find?_eq_none.mpr
    intro e he hpe
    simp only [Bool.and_eq_true, beq_iff_eq] at hpe
    exact hn e he hpe
  refine ⟨?_, ?_, ?_, ?_, ?_⟩
  · intro e he hfa hfb hdel
    unfold create_friend_service
    simp only [hsameOf e he hfa hfb, hdel]
    simp
  · intro e he hfa hfb hdel
    unfold create_friend_service
    simp only [hsameOf e he hfa hfb, hdel]
    simp
  · intro hn v hv hfa hfb hdel
    have hrev : db.find? (fun r => r.friend_from_id == b && r.friend_to_id == a) = some v := by
      apply find?_eq_some_of_unique hv
      · simp [hfa, hfb]
      · intro s hs hps
        simp only [Bool.and_eq_true, beq_iff_eq] at hps
        exact hinv.2 s hs v hv (Or.inl ⟨hps.1.trans hfa.symm, hps.2.trans hfb.symm⟩)
    unfold create_friend_service
    simp only [hnoneOf a b hn, hrev, hdel]
    simp
  · intro hn v hv hfa hfb hdel
    have hrev : db.find? (fun r => r.friend_from_id == b && r.friend_to_id == a) = some v := by
      apply find?_eq_some_of_unique hv
      · simp [hfa, hfb]
      · intro s hs hps
        simp only [Bool.and_eq_true, beq_iff_eq] at hps
        exact hinv.2 s hs v hv (Or.inl ⟨hps.1.trans hfa.symm, hps.2.trans hfb.symm⟩)
    unfold create_friend_service
    simp only [hnoneOf a b hn, hrev, hdel]
    simp
  · intro hn1 hn2
    unfold create_friend_service
    simp only [hnoneOf a b hn1, hnoneOf b a hn2]

/-- C2, witness: on an empty store, creating `(1,2)` appends a pending
edge. -/
theorem create_friend_case_analysis_witness :
    create_friend_service [] ⟨1, 2, false, false, false⟩ 7 9 =
      .ok ({ id := 7, friend_from_id := 1, friend_to_id := 2, accept := false,
             decline := false, delete := false, created_at := 9,
             is_deleted := false, deleted_at := none },
        [{ id := 7, friend_from_id := 1, friend_to_id := 2, accept := false,
           decline := false, delete := false, created_at := 9,
           is_deleted := false, deleted_at := none }]) :=
  (create_friend_case_analysis [] 1 2 7 9 (by decide)).2.2.2.2
    (by decide) (by decide)

/-! ## Redemption lemmas -/

/-- The validation/read phase succeeds and returns the promo and user rows
when the code resolves to an active, unexpired promo with quota headroom
and the user is active.  `hpuniq` reflects the `UNIQUE` constraint on the
`code` column, `huuniq` primary-key uniqueness of users. -/
theorem redeemLookup_ok {s : PromoState} {code : String} {uid now : Nat}
    {p : PromoRec} {u : UserRec}
    (hp : p ∈ s.promos) (hpdel : p.is_deleted = false)
    (hcode : p.code = pyUpper code)
    (hpuniq : ∀ q ∈ s.promos, q.code = pyUpper code → q = p)
    (hactive : p.is_active = true)
    (hexp : promoExpired p now = false)
    (hquota : promoQuotaReached p = false)
    (hu : u ∈ s.users) (hudel : u.is_deleted = false) (huid : u.id = uid)
    (huuniq : ∀ w ∈ s.users, w.id = uid → w = u) :
    redeemLookup s code uid now = .ok (p, u) := by
  have hfp : s.promos.find?
      (fun q => keepActive q.is_deleted && q.code == pyUpper code) = some p := by
    apply find?_eq_some_of_unique hp
    · simp [keepActive, hpdel, hcode]
    · intro q hq hpq
      simp only [keepActive, Bool.and_eq_true, beq_iff_eq] at hpq
      exact hpuniq q hq hpq.2
  have hfu : s.users.find?
      (fun w => keepActive w.is_deleted && w.id == uid) = some u := by
    apply find?_eq_some_of_unique hu
    · simp [keepActive, hudel, huid]
    · intro w hw hpw
      simp only [keepActive, Bool.and_eq_true, beq_iff_eq] at hpw
      exact huuniq w hw hpw.2
  unfold redeemLookup
  simp only [hfp, hactive, hexp, hquota, hfu]
  simp

/-- A successful sequential redemption in full: the service returns
`nb_parties` and the store with the user's balance credited and the promo
counter bumped, all other rows mapped to themselves. -/
theorem use_promo_code_ok
    (s : PromoState) (code : String) (uid now : Nat) (p : PromoRec) (u : UserRec)
    (hp : p ∈ s.promos) (hpdel : p.is_deleted = false)
    (hcode : p.code = pyUpper code)
    (hpuniq : ∀ q ∈ s.promos, q.code = pyUpper code → q = p)
    (hactive : p.is_active = true)
    (hexp : ∀ t, p.expires_at = some t → now ≤ t)
    (hquota : p.max_uses = none ∨ ∃ m, p.max_uses = some m ∧ p.used_count < m)
    (hu : u ∈ s.users) (hudel : u.is_deleted = false) (huid : u.id = uid)
    (huuniq : ∀ w ∈ s.users, w.id = uid → w = u) :
    use_promo_code_service s code uid now =
      .ok (p.nb_parties,
        { promos := s.promos.map (fun q =>
            if q.id == p.id then { q with used_count := p.used_count + 1 }
            else q)
          users := s.users.map (fun w =>
            if w.id == u.id then { w with nb_ticket := u.nb_ticket + p.nb_parties }
            else w) }) := by
  have hexp' : promoExpired p now = false := by
    unfold promoExpired
    cases ht : p.expires_at with
    | none => rfl
    | some t => simpa using hexp t ht
  have hquota' : promoQuotaReached p = false := by
    unfold promoQuotaReached
    rcases hquota with hq | ⟨m, hm, hlt⟩
    · rw [hq]
    · rw [hm]
      simp [Nat.not_le.mpr hlt]
  unfold use_promo_code_service
  rw [redeemLookup_ok hp hpdel hcode hpuniq hactive hexp' hquota' hu hudel
    huid huuniq]
  rfl

/-! ## C4 — successful redemption and its exact effects -/

/-- **C4.**  Redeeming a code that upper-cases to the stored `code` of an
active, non-deleted promo row that is unexpired and has quota headroom, on
behalf of an active user, succeeds, and the resulting store differs from
the old one in exactly two cells of one commit: the user row's `nb_ticket`
grows by `nb_parties` and the promo row's `used_count` grows by `1`; every
other row is mapped to itself. -/
theorem redeem_success_effects
    (s : PromoState) (code : String) (uid now : Nat) (p : PromoRec) (u : UserRec)
    (hp : p ∈ s.promos) (hpdel : p.is_deleted = false)
    (hcode : p.code = pyUpper code)
    (hpuniq : ∀ q ∈ s.promos, q.code = pyUpper code → q = p)
    (hactive : p.is_active = true)
    (hexp : ∀ t, p.expires_at = some t → now ≤ t)
    (hquota : p.max_uses = none ∨ ∃ m, p.max_uses = some m ∧ p.used_count < m)
    (hu : u ∈ s.users) (hudel : u.is_deleted = false) (huid : u.id = uid)
    (huuniq : ∀ w ∈ s.users, w.id = uid → w = u) :
    use_promo_code_service s code uid now =
      .ok (p.nb_parties,
        { promos := s.promos.map (fun q =>
            if q.id == p.id then { q with used_count := p.used_count + 1 }
            else q)
          users := s.users.map (fun w =>
            if w.id == u.id then { w with nb_ticket := u.nb_ticket + p.nb_parties }
            else w) }) :=
  use_promo_code_ok s code uid now p u hp hpdel hcode hpuniq hactive hexp
    hquota hu hudel huid huuniq

/-- An active demo promo code granting 3 tickets, single use. -/
def savePromo : PromoRec :=
  { id := 0, code := "SAVE10", nb_parties := 3, is_active := true,
    expires_at := none, used_count := 0, max_uses := some 1,
    created_at := 0, is_deleted := false, deleted_at := none }

/-- Demo user 1 with an empty ticket balance. -/
def userOne : UserRec :=
  { id := 1, publique_id := "PUB1", firebase_id := "FB1", nb_ticket := 0,
    bar := false, created_at := 0, is_deleted := false, deleted_at := none }

/-- Demo user 2 with an empty ticket balance. -/
def userTwo : UserRec :=
  { id := 2, publique_id := "PUB2", firebase_id := "FB2", nb_ticket := 0,
    bar := false, created_at := 0, is_deleted := false, deleted_at := none }

/-- C4, witness: user 1 redeems `"save10"` (lower case) against the store
holding `savePromo`; the balance becomes 3 and the counter 1. -/
theorem redeem_success_effects_witness :
    use_promo_code_service { promos := [savePromo], users := [userOne] }
      "save10" 1 5 =
      .ok (3, { promos := [{ savePromo with used_count := 1 }],
                users := [{ userOne with nb_ticket := 3 }] }) := by
  have h := redeem_success_effects
    { promos := [savePromo], users := [userOne] } "save10" 1 5 savePromo
    userOne (by decide) (by decide) (by decide) (by decide) (by decide)
    (by decide) (by decide) (by decide) (by decide) (by decide) (by decide)
  simpa using h

/-! ## C9 — expiry failures -/

/-- **C9** (amended).  For an **active**, non-deleted promo row whose
`expires_at` lies in the past, redemption fails with the expiry error no
matter how much quota remains — no hypothesis on `max_uses`, `used_count`
or even on the user is needed, because the expiry check precedes both.
The error aborts the unit of work, so neither `nb_ticket` nor `used_count`
is written.  (The unamended claim, quantifying over every expired promo
row, fails: an expired row that is also inactive reports the inactive
error instead — see the counterexample.) -/
theorem redeem_expired_fails
    (s : PromoState) (code : String) (uid now t : Nat) (p : PromoRec)
    (hp : p ∈ s.promos) (hpdel : p.is_deleted = false)
    (hcode : p.code = pyUpper code)
    (hpuniq : ∀ q ∈ s.promos, q.code = pyUpper code → q = p)
    (hactive : p.is_active = true)
    (hexp : p.expires_at = some t) (ht : t < now) :
    use_promo_code_service s code uid now = .error .promoExpired := by
  have hfp : s.promos.find?
      (fun q => keepActive q.is_deleted && q.code == pyUpper code) = some p := by
    apply find?_eq_some_of_unique hp
    · simp [keepActive, hpdel, hcode]
    · intro q hq hpq
      simp only [keepActive, Bool.and_eq_true, beq_iff_eq] at hpq
      exact hpuniq q hq hpq.2
  have hexp' : promoExpired p now = true := by
    unfold promoExpired
    rw [hexp]
    simpa using ht
  unfold use_promo_code_service redeemLookup
  simp only [hfp, hactive, hexp']
  simp

/-- An expired promo row that has also been switched inactive, with plenty
of quota left. -/
def expiredInactivePromo : PromoRec :=
  { id := 0, code := "SAVE10", nb_parties := 3, is_active := false,
    expires_at := some 0, used_count := 0, max_uses := none,
    created_at := 0, is_deleted := false, deleted_at := none }

/-- C9, counterexample: at time 10 the code of `expiredInactivePromo` is
expired (0 < 10) and its quota is untouched, yet redemption reports the
*inactive* error, not the expiry error: the activity check runs first, so
the claim does not hold for every expired promo row. -/
theorem redeem_expired_inactive_counterexample :
    expiredInactivePromo.expires_at = some 0 ∧ (0 : Nat) < 10 ∧
    use_promo_code_service
      { promos := [expiredInactivePromo], users := [userOne] }
      "SAVE10" 1 10 = .error .promoInactive ∧
    ApiError.promoInactive ≠ ApiError.promoExpired :=
  ⟨rfl, by decide, rfl, by decide⟩

/-- C9, witness: the amended theorem applied to `savePromo` with its expiry
set in the past. -/
theorem redeem_expired_fails_witness :
    use_promo_code_service
      { promos := [{ savePromo with expires_at := some 4 }],
        users := [userOne] } "SAVE10" 1 9 = .error .promoExpired :=
  redeem_expired_fails
    { promos := [{ savePromo with expires_at := some 4 }], users := [userOne] }
    "SAVE10" 1 9 4 { savePromo with expires_at := some 4 }
    (by decide) (by decide) (by decide) (by decide) (by decide) (by decide)
    (by decide)

/-! ## C3 — concurrent redemption of a single-use code -/

/-- Store for the concurrency scenario: one single-use promo code and two
active users. -/
def concState : PromoState :=
  { promos := [savePromo], users := [userOne, userTwo] }

/-- **C3.**  `use_promo_code_service` is a plain read-then-write with no
row lock or atomic compare-and-increment: each call is the validation/read
phase `redeemLookup` followed by the commit `redeemApply` of the values
computed from its own snapshots.  Two concurrent calls may therefore both
run their read phase against the initial store before either commits
(schedule read₁, read₂, commit₁, commit₂) — nothing in the code serializes
step 6 per promo code.  Under that schedule, with `max_uses = 1` and
`used_count = 0`, **both** calls pass the quota check and succeed: user 1
and user 2 are each credited the full 3 tickets, two successful
redemptions of a one-use code.  (The final counter even reads 1, not 2,
because the second stale commit overwrites the first.)  The claimed
outcome — exactly one success and one quota failure — does not hold. -/
theorem concurrent_redeem_overshoots_quota :
    savePromo.max_uses = some 1 ∧ savePromo.used_count = 0 ∧
    redeemLookup concState "SAVE10" 1 5 = .ok (savePromo, userOne) ∧
    redeemLookup concState "SAVE10" 2 5 = .ok (savePromo, userTwo) ∧
    (redeemApply (redeemApply concState savePromo userOne) savePromo
        userTwo).users =
      [{ userOne with nb_ticket := 3 }, { userTwo with nb_ticket := 3 }] ∧
    (redeemApply (redeemApply concState savePromo userOne) savePromo
        userTwo).promos = [{ savePromo with used_count := 1 }] :=
  ⟨rfl, rfl, rfl, rfl, rfl, rfl⟩

/-! ## C10 — no per-user redemption ledger -/

/-- **C10.**  `use_promo_code_service` records nothing about which user
redeemed a code: with the code still active, unexpired and holding quota
headroom for two more uses, the *same* user redeems twice in a row and
both calls succeed — the second credits `nb_parties` again, ending with
`nb_ticket` grown by `2 * nb_parties` and `used_count` by `2`. -/
theorem redeem_twice_same_user
    (s : PromoState) (code : String) (uid now : Nat) (p : PromoRec) (u : UserRec)
    (hp : p ∈ s.promos) (hpdel : p.is_deleted = false)
    (hcode : p.code = pyUpper code)
    (hpuniq : ∀ q ∈ s.promos, q.code = pyUpper code → q = p)
    (hactive : p.is_active = true)
    (hexp : ∀ t, p.expires_at = some t → now ≤ t)
    (hquota : p.max_uses = none ∨ ∃ m, p.max_uses = some m ∧ p.used_count + 2 ≤ m)
    (hu : u ∈ s.users) (hudel : u.is_deleted = false) (huid : u.id = uid)
    (huuniq : ∀ w ∈ s.users, w.id = uid → w = u) :
    use_promo_code_service s code uid now =
      .ok (p.nb_parties, redeemApply s p u) ∧
    use_promo_code_service (redeemApply s p u) code uid now =
      .ok (p.nb_parties,
        redeemApply (redeemApply s p u)
          { p with used_count := p.used_count + 1 }
          { u with nb_ticket := u.nb_ticket + p.nb_parties }) ∧
    (∀ w ∈ (redeemApply (redeemApply s p u)
        { p with used_count := p.used_count + 1 }
        { u with nb_ticket := u.nb_ticket + p.nb_parties }).users,
      w.id = uid → w.nb_ticket = u.nb_ticket + 2 * p.nb_parties) ∧
    (∀ q ∈ (redeemApply (redeemApply s p u)
        { p with used_count := p.used_count + 1 }
        { u with nb_ticket := u.nb_ticket + p.nb_parties }).promos,
      q.code = pyUpper code → q.used_count = p.used_count + 2) := by
  have hquota1 : p.max_uses = none ∨
      ∃ m, p.max_uses = some m ∧ p.used_count < m := by
    rcases hquota with h | ⟨m, hm, h2⟩
    · exact Or.inl h
    · exact Or.inr ⟨m, hm, by omega⟩
  have h1 := use_promo_code_ok s code uid now p u hp hpdel hcode hpuniq
    hactive hexp hquota1 hu hudel huid huuniq
  set p1 : PromoRec := { p with used_count := p.used_count + 1 } with hp1
  set u1 : UserRec := { u with nb_ticket := u.nb_ticket + p.nb_parties } with hu1
  have hp1mem : p1 ∈ (redeemApply s p u).promos := by
    unfold redeemApply
    refine List.mem_map.mpr ⟨p, hp, ?_⟩
    simp [hp1]
  have hu1mem : u1 ∈ (redeemApply s p u).users := by
    unfold redeemApply
    refine List.mem_map.mpr ⟨u, hu, ?_⟩
    simp [hu1]
  have hpuniq1 : ∀ q ∈ (redeemApply s p u).promos,
      q.code = pyUpper code → q = p1 := by
    intro q hq hqc
    unfold redeemApply at hq
    obtain ⟨q0, hq0, rfl⟩ := List.mem_map.mp hq
    by_cases hid : (q0.id == p.id) = true
    · simp only [hid, if_pos] at hqc ⊢
      have : q0 = p := hpuniq q0 hq0 hqc
      rw [this, hp1]
    · rw [if_neg hid] at hqc ⊢
      have hq0p : q0 = p := hpuniq q0 hq0 hqc
      exact absurd (by simp [hq0p]) hid
  have huuniq1 : ∀ w ∈ (redeemApply s p u).users, w.id = uid → w = u1 := by
    intro w hw hwid
    unfold redeemApply at hw
    obtain ⟨w0, hw0, rfl⟩ := List.mem_map.mp hw
    by_cases hid : (w0.id == u.id) = true
    · simp only [hid, if_pos] at hwid ⊢
      have hw0u : w0 = u := huuniq w0 hw0 (by
        have := beq_iff_eq.mp hid
        rw [this, huid])
      rw [hw0u, hu1]
    · simp only [if_neg hid] at hwid ⊢
      have hw0u : w0 = u := huuniq w0 hw0 hwid
      exact absurd (by simp [hw0u]) hid
  have h2 := use_promo_code_ok (redeemApply s p u) code uid now p1 u1 hp1mem
    (by rw [hp1]; exact hpdel) (by rw [hp1]; exact hcode) hpuniq1
    (by rw [hp1]; exact hactive)
    (by intro t ht; exact hexp t (by rw [hp1] at ht; exact ht))
    (by rcases hquota with h | ⟨m, hm, hmle⟩
        · exact Or.inl (by rw [hp1]; exact h)
        · refine Or.inr ⟨m, by rw [hp1]; exact hm, ?_⟩
          show p1.used_count < m
          rw [hp1]
          show p.used_count + 1 < m
          omega)
    hu1mem (by rw [hu1]; exact hudel) (by rw [hu1]; exact huid) huuniq1
  refine ⟨h1, h2, ?_, ?_⟩
  · intro w hw hwid
    unfold redeemApply at hw
    obtain ⟨w1, hw1, rfl⟩ := List.mem_map.mp hw
    have hw1id : w1.id = uid := by
      by_cases hid : (w1.id == u1.id) = true
      · simp only [hid, if_pos] at hwid
        exact hwid
      · simp only [if_neg hid] at hwid
        exact hwid
    have hw1u : w1 = u1 := huuniq1 w1 hw1 hw1id
    have hid1 : (w1.id == u1.id) = true := by
      rw [hw1u]
      simp
    simp only [hid1, if_pos]
    show u1.nb_ticket + p1.nb_parties = u.nb_ticket + 2 * p.nb_parties
    rw [hu1, hp1]
    show u.nb_ticket + p.nb_parties + p.nb_parties = u.nb_ticket + 2 * p.nb_parties
    ring
  · intro q hq hqc
    unfold redeemApply at hq
    obtain ⟨q1, hq1, rfl⟩ := List.mem_map.mp hq
    have hq1c : q1.code = pyUpper code := by
      by_cases hid : (q1.id == p1.id) = true
      · simp only [hid, if_pos] at hqc
        exact hqc
      · simp only [if_neg hid] at hqc
        exact hqc
    have hq1p : q1 = p1 := hpuniq1 q1 hq1 hq1c
    have hid1 : (q1.id == p1.id) = true := by
      rw [hq1p]
      simp
    simp only [hid1, if_pos]

/-- Store for the double-redemption witness: the demo code with two uses
allowed. -/
def twoUseState : PromoState :=
  { promos := [{ savePromo with max_uses := some 2 }], users := [userOne] }

/-- C10, witness: the first of the two successive redemptions by user 1
against `twoUseState`. -/
theorem redeem_twice_same_user_witness :
    use_promo_code_service twoUseState "SAVE10" 1 5 =
      .ok (3, redeemApply twoUseState
        { savePromo with max_uses := some 2 } userOne) :=
  (redeem_twice_same_user twoUseState "SAVE10" 1 5
    { savePromo with max_uses := some 2 } userOne
    (by decide) (by decide) (by decide) (by decide) (by decide) (by decide)
    (by decide) (by decide) (by decide) (by decide) (by decide)).1

/-! ## C5 — hard delete and the deletion scope -/

/-- C5, counterexample: a hard-delete request on an existing but
soft-deleted friendship does not succeed — the default non-deleted lookup
scope hides the row and the service answers 404, contradicting the claim
that hard delete never fails for a soft-deleted target. -/
theorem hard_delete_soft_deleted_counterexample :
    edgeOneTwoDeleted.is_deleted = true ∧
    delete_friend_service [edgeOneTwoDeleted] 0 true 9 =
      .error .friendNotFound ∧
    ApiError.friendNotFound.status = 404 :=
  ⟨rfl, rfl, rfl⟩

/-- **C5** (amended).  Hard delete succeeds on *active* records and removes
the row, for all three entity kinds; but a delete request targeting a
*soft-deleted* record fails with the 404 not-found error, because all
three delete services look the record up under the default non-deleted
scope.  The uniqueness hypotheses are primary-key uniqueness of each
table. -/
theorem hard_delete_scope
    (fdb : List FriendRec) (f : FriendRec)
    (pdb : List PromoRec) (g : PromoRec)
    (udb : List UserRec) (w : UserRec) (now : Nat)
    (hf : f ∈ fdb) (hfu : ∀ r ∈ fdb, r.id = f.id → r = f)
    (hg : g ∈ pdb) (hgu : ∀ r ∈ pdb, r.id = g.id → r = g)
    (hw : w ∈ udb) (hwu : ∀ r ∈ udb, r.id = w.id → r = w) :
    (f.is_deleted = false →
      delete_friend_service fdb f.id true now =
        .ok (f, fdb.filter (fun r => !(r.id == f.id)))) ∧
    (f.is_deleted = true →
      delete_friend_service fdb f.id true now = .error .friendNotFound) ∧
    (g.is_deleted = false →
      delete_promo_code_service pdb g.id true now =
        .ok (g, pdb.filter (fun r => !(r.id == g.id)))) ∧
    (g.is_deleted = true →
      delete_promo_code_service pdb g.id true now = .error .promoNotFound) ∧
    (w.is_deleted = false →
      delete_user_service udb w.id true now =
        .ok (w, udb.filter (fun r => !(r.id == w.id)))) ∧
    (w.is_deleted = true →
      delete_user_service udb w.id true now = .error .userNotFound) := by
  refine ⟨?_, ?_, ?_, ?_, ?_, ?_⟩ <;> intro hdel
  · have hfind : fdb.find?
        (fun r => keepActive r.is_deleted && r.id == f.id) = some f := by
      apply find?_eq_some_of_unique hf
      · simp [keepActive, hdel]
      · intro s hs hps
        simp only [keepActive, Bool.and_eq_true, beq_iff_eq] at hps
        exact hfu s hs hps.2
    unfold delete_friend_service
    simp only [hfind]
    rfl
  · have hfind : fdb.find?
        (fun r => keepActive r.is_deleted && r.id == f.id) = none := by
      apply List.find?_eq_none.mpr
      intro s hs hps
      simp only [keepActive, Bool.and_eq_true, beq_iff_eq, Bool.not_eq_eq_eq_not] at hps
      have := hfu s hs hps.2
      rw [this, hdel] at hps
      simp at hps
    unfold delete_friend_service
    simp only [hfind]
  · have hfind : pdb.find?
        (fun r => keepActive r.is_deleted && r.id == g.id) = some g := by
      apply find?_eq_some_of_unique hg
      · simp [keepActive, hdel]
      · intro s hs hps
        simp only [keepActive, Bool.and_eq_true, beq_iff_eq] at hps
        exact hgu s hs hps.2
    unfold delete_promo_code_service
    simp only [hfind]
    rfl
  · have hfind : pdb.find?
        (fun r => keepActive r.is_deleted && r.id == g.id) = none := by
      apply List.find?_eq_none.mpr
      intro s hs hps
      simp only [keepActive, Bool.and_eq_true, beq_iff_eq, Bool.not_eq_eq_eq_not] at hps
      have := hgu s hs hps.2
      rw [this, hdel] at hps
      simp at hps
    unfold delete_promo_code_service
    simp only [hfind]
  · have hfind : udb.find?
        (fun r => keepActive r.is_deleted && r.id == w.id) = some w := by
      apply find?_eq_some_of_unique hw
      · simp [keepActive, hdel]
      · intro s hs hps
        simp only [keepActive, Bool.and_eq_true, beq_iff_eq] at hps
        exact hwu s hs hps.2
    unfold delete_user_service
    simp only [hfind]
    rfl
  · have hfind : udb.find?
        (fun r => keepActive r.is_deleted && r.id == w.id) = none := by
      apply List.find?_eq_none.mpr
      intro s hs hps
      simp only [keepActive, Bool.and_eq_true, beq_iff_eq, Bool.not_eq_eq_eq_not] at hps
      have := hwu s hs hps.2
      rw [this, hdel] at hps
      simp at hps
    unfold delete_user_service
    simp only [hfind]

/-- C5, witness: hard-deleting the active edge removes its row. -/
theorem hard_delete_scope_witness :
    delete_friend_service [edgeTwoOneActive] 1 true 9 =
      .ok (edgeTwoOneActive, []) :=
  (hard_delete_scope [edgeTwoOneActive] edgeTwoOneActive [savePromo] savePromo
    [userOne] userOne 9 (by decide) (by decide) (by decide) (by decide)
    (by decide) (by decide)).1 (by decide)

/-! ## C6 — soft delete on an already-deleted record -/

/-- C6, counterexample: a soft-delete request on the already-soft-deleted
edge 0 fails with the 404 not-found error — not with any 400
precondition-violation (`InvalidState`-style) error, of which the delete
services raise none. -/
theorem soft_delete_already_deleted_counterexample :
    edgeOneTwoDeleted.is_deleted = true ∧
    delete_friend_service [edgeOneTwoDeleted] 0 false 9 =
      .error .friendNotFound ∧
    ApiError.friendNotFound.status = 404 ∧ (404 : Nat) ≠ 400 :=
  ⟨rfl, rfl, rfl, by decide⟩

/-- **C6** (amended).  A soft-delete request on a record that is already
soft-deleted fails with the 404 not-found error, in all three services:
the lookup runs under the default non-deleted scope, which hides the row,
so no `InvalidState`-style precondition error is ever reached. -/
theorem soft_delete_scope
    (fdb : List FriendRec) (f : FriendRec)
    (pdb : List PromoRec) (g : PromoRec)
    (udb : List UserRec) (w : UserRec) (now : Nat)
    (_hf : f ∈ fdb) (hfu : ∀ r ∈ fdb, r.id = f.id → r = f)
    (_hg : g ∈ pdb) (hgu : ∀ r ∈ pdb, r.id = g.id → r = g)
    (_hw : w ∈ udb) (hwu : ∀ r ∈ udb, r.id = w.id → r = w)
    (hdf : f.is_deleted = true) (hdg : g.is_deleted = true)
    (hdw : w.is_deleted = true) :
    delete_friend_service fdb f.id false now = .error .friendNotFound ∧
    delete_promo_code_service pdb g.id false now = .error .promoNotFound ∧
    delete_user_service udb w.id false now = .error .userNotFound := by
  refine ⟨?_, ?_, ?_⟩
  · have hfind : fdb.find?
        (fun r => keepActive r.is_deleted && r.id == f.id) = none := by
      apply List.find?_eq_none.mpr
      intro s hs hps
      simp only [keepActive, Bool.and_eq_true, beq_iff_eq] at hps
      have := hfu s hs hps.2
      rw [this, hdf] at hps
      simp at hps
    unfold delete_friend_service
    simp only [hfind]
  · have hfind : pdb.find?
        (fun r => keepActive r.is_deleted && r.id == g.id) = none := by
      apply List.find?_eq_none.mpr
      intro s hs hps
      simp only [keepActive, Bool.and_eq_true, beq_iff_eq] at hps
      have := hgu s hs hps.2
      rw [this, hdg] at hps
      simp at hps
    unfold delete_promo_code_service
    simp only [hfind]
  · have hfind : udb.find?
        (fun r => keepActive r.is_deleted && r.id == w.id) = none := by
      apply List.find?_eq_none.mpr
      intro s hs hps
      simp only [keepActive, Bool.and_eq_true, beq_iff_eq] at hps
      have := hwu s hs hps.2
      rw [this, hdw] at hps
      simp at hps
    unfold delete_user_service
    simp only [hfind]

/-- A soft-deleted demo promo row. -/
def deletedPromo : PromoRec :=
  { id := 3, code := "OLDCODE1", nb_parties := 3, is_active := true,
    expires_at := none, used_count := 0, max_uses := some 1,
    created_at := 0, is_deleted := true, deleted_at := some 2 }

/-- A soft-deleted demo user row. -/
def deletedUser : UserRec :=
  { id := 4, publique_id := "PUB4", firebase_id := "FB4", nb_ticket := 0,
    bar := false, created_at := 0, is_deleted := true, deleted_at := some 2 }

/-- C6, witness: the amended theorem applied to singleton stores of
soft-deleted rows. -/
theorem soft_delete_scope_witness :
    delete_friend_service [edgeOneTwoDeleted] 0 false 9 =
      .error .friendNotFound ∧
    delete_promo_code_service [deletedPromo] 3 false 9 =
      .error .promoNotFound ∧
    delete_user_service [deletedUser] 4 false 9 = .error .userNotFound :=
  soft_delete_scope [edgeOneTwoDeleted] edgeOneTwoDeleted [deletedPromo]
    deletedPromo [deletedUser] deletedUser 9 (by decide) (by decide)
    (by decide) (by decide) (by decide) (by decide) (by decide) (by decide)
    (by decide)

/-! ## C7 — restore preconditions and effects -/

/-- **C7.**  Restore looks its target up with no deletion scope: on an
existing *active* record it fails with the 400 not-deleted error — and,
the error aborting the unit of work, the store is untouched; on an
existing *soft-deleted* record it succeeds, clearing `is_deleted` and
nulling `deleted_at` on exactly that row.  Proved for both services that
implement restore (friendships and promo codes). -/
theorem restore_behavior
    (fdb : List FriendRec) (f : FriendRec) (pdb : List PromoRec) (g : PromoRec)
    (hf : f ∈ fdb) (hfu : ∀ r ∈ fdb, r.id = f.id → r = f)
    (hg : g ∈ pdb) (hgu : ∀ r ∈ pdb, r.id = g.id → r = g) :
    (f.is_deleted = false →
      restore_friend_service fdb f.id = .error .friendshipNotDeleted) ∧
    (f.is_deleted = true →
      restore_friend_service fdb f.id =
        .ok ({ f with is_deleted := false, deleted_at := none },
          fdb.map (fun r =>
            if r.id == f.id then { r with is_deleted := false, deleted_at := none }
            else r))) ∧
    (g.is_deleted = false →
      restore_promo_code_service pdb g.id = .error .promoNotDeleted) ∧
    (g.is_deleted = true →
      restore_promo_code_service pdb g.id =
        .ok ({ g with is_deleted := false, deleted_at := none },
          pdb.map (fun r =>
            if r.id == g.id then { r with is_deleted := false, deleted_at := none }
            else r))) := by
  have hfindf : fdb.find? (fun r => r.id == f.id) = some f := by
    apply find?_eq_some_of_unique hf
    · simp
    · intro s hs hps
      exact hfu s hs (beq_iff_eq.mp hps)
  have hfindg : pdb.find? (fun r => r.id == g.id) = some g := by
    apply find?_eq_some_of_unique hg
    · simp
    · intro s hs hps
      exact hgu s hs (beq_iff_eq.mp hps)
  refine ⟨?_, ?_, ?_, ?_⟩ <;> intro hdel
  · unfold restore_friend_service
    simp only [hfindf, hdel]
    simp
  · unfold restore_friend_service
    simp only [hfindf, hdel]
    simp
  · unfold restore_promo_code_service
    simp only [hfindg, hdel]
    simp
  · unfold restore_promo_code_service
    simp only [hfindg, hdel]
    simp

/-- C7, witness: restoring the soft-deleted edge 0 in a store where no
reverse edge interferes. -/
theorem restore_behavior_witness :
    restore_friend_service [edgeOneTwoDeleted] 0 =
      .ok ({ edgeOneTwoDeleted with is_deleted := false, deleted_at := none },
        [{ edgeOneTwoDeleted with is_deleted := false, deleted_at := none }]) := by
  have h := (restore_behavior [edgeOneTwoDeleted] edgeOneTwoDeleted
    [deletedPromo] deletedPromo (by decide) (by decide) (by decide)
    (by decide)).2.1 (by decide)
  simpa using h

/-! ## C8 — soft delete then restore round trip -/

/-- **C8.**  Soft-deleting an active friendship row and then restoring it
brings the store back to where it started except for that row's
`deleted_at` column (reset to `none`, whatever it held): the restored row
keeps its id, endpoints, status flags, `created_at` and active
`is_deleted`, and every other row is untouched by both steps.  (The
`updated_at` column, refreshed by the ORM hook on every mutation and
excluded by the claim alongside `deleted_at`, is outside the model.) -/
theorem soft_delete_restore_roundtrip
    (db : List FriendRec) (f : FriendRec) (now : Nat)
    (hf : f ∈ db) (hfu : ∀ r ∈ db, r.id = f.id → r = f)
    (hact : f.is_deleted = false) :
    delete_friend_service db f.id false now =
      .ok (soft_delete_friend f now,
        db.map (fun r => if r.id == f.id then soft_delete_friend r now else r)) ∧
    restore_friend_service
        (db.map (fun r => if r.id == f.id then soft_delete_friend r now else r))
        f.id =
      .ok ({ f with deleted_at := none },
        db.map (fun r =>
          if r.id == f.id then { r with deleted_at := none } else r)) := by
  constructor
  · have hfind : db.find?
        (fun r => keepActive r.is_deleted && r.id == f.id) = some f := by
      apply find?_eq_some_of_unique hf
      · simp [keepActive, hact]
      · intro s hs hps
        simp only [keepActive, Bool.and_eq_true, beq_iff_eq] at hps
        exact hfu s hs hps.2
    unfold delete_friend_service
    simp only [hfind]
    rfl
  · have hmem : soft_delete_friend f now ∈
        db.map (fun r => if r.id == f.id then soft_delete_friend r now else r) := by
      refine List.mem_map.mpr ⟨f, hf, ?_⟩
      simp
    have hfind : (db.map
        (fun r => if r.id == f.id then soft_delete_friend r now else r)).find?
        (fun r => r.id == f.id) = some (soft_delete_friend f now) := by
      apply find?_eq_some_of_unique hmem
      · simp [soft_delete_friend]
      · intro s hs hps
        obtain ⟨r, hr, rfl⟩ := List.mem_map.mp hs
        have hrid : r.id = f.id := by
          by_cases hid : (r.id == f.id) = true
          · exact beq_iff_eq.mp hid
          · rw [if_neg hid] at hps
            exact beq_iff_eq.mp hps
        have hrf : r = f := hfu r hr hrid
        rw [hrf]
        simp
    unfold restore_friend_service
    simp only [hfind]
    have hsd : (soft_delete_friend f now).is_deleted = true := rfl
    rw [if_pos hsd]
    have hrec : ({ soft_delete_friend f now with
        is_deleted := false, deleted_at := none } : FriendRec) =
        { f with deleted_at := none } := by
      show ({ f with deleted_at := none, is_deleted := false } : FriendRec) =
        { f with deleted_at := none }
      rw [← hact]
    have hstate : (db.map
          (fun r => if r.id == f.id then soft_delete_friend r now else r)).map
          (fun r => if r.id == f.id then
            { r with is_deleted := false, deleted_at := none } else r) =
        db.map (fun r =>
          if r.id == f.id then { r with deleted_at := none } else r) := by
      rw [List.map_map]
      apply List.map_congr_left
      intro r hr
      simp only [Function.comp]
      by_cases hid : (r.id == f.id) = true
      · have hrf : r = f := hfu r hr (beq_iff_eq.mp hid)
        rw [if_pos hid]
        have hsid : ((soft_delete_friend r now).id == f.id) = true := by
          simpa [soft_delete_friend] using hid
        rw [if_pos hsid, if_pos hid]
        show ({ r with deleted_at := none, is_deleted := false } : FriendRec) =
          { r with deleted_at := none }
        rw [hrf, ← hact]
      · rw [if_neg hid, if_neg hid, if_neg hid]
    rw [hrec, hstate]

/-- C8, witness: the round trip on a one-row store — the restored store
equals the original row with `deleted_at` still `none`. -/
theorem soft_delete_restore_roundtrip_witness :
    restore_friend_service [soft_delete_friend edgeTwoOneActive 7] 1 =
      .ok ({ edgeTwoOneActive with deleted_at := none },
        [{ edgeTwoOneActive with deleted_at := none }]) := by
  have h := (soft_delete_restore_roundtrip [edgeTwoOneActive]
    edgeTwoOneActive 7 (by decide) (by decide) (by decide)).2
  simpa using h
